import Mathlib

/-!
# Verification of the `easyemitter.ts` event emitter

Shallow embedding of `src/index.ts` (`class EventEmitter`).  The emitter
owns three collections:

* `#calls    : Map<key, Set<callback>>` — the listener registry,
* `#waiters  : Set<reject>`             — reject callbacks of pending `wait` promises,
* `#timeouts : Set<number>`             — handles of timers started by `wait`.

Listener callables are modelled by identity: an index (`LId`) into a
listener store, where each entry is either a user-supplied callback (a
body of observable actions, possibly re-entrant calls back into the
emitter), a `once` wrapper, or the resolve callback that `wait` registers
via `once`.  Promises are modelled by a table with settle-once semantics
(`resolve`/`reject` on an already settled promise are no-ops, as for JS
promises), and `setTimeout` handles by a timer table; the host firing a
timer is the external event `fireTimer`.

JS `Set` iteration (as in `emit`'s `for (const callFn of set)`) is live,
not a snapshot: per the ECMAScript specification, `Set.prototype.delete`
replaces the entry with EMPTY (keeping its slot), `add` appends a new
entry at the end, and the iterator walks the entry list by index,
skipping EMPTY slots and seeing entries appended during iteration.  The
registry therefore stores each key's set as a list of slots
(`Option LId`, `none` being an EMPTY slot), and `emit` is interpreted by
a cursor walk over those slots.  Each map entry also carries a generation
tag standing for the JS `Set` object's identity (a fresh `Set` is
created by `on` when the key is absent), so that an iterator over a set
discarded by `destroy` does not pick up a replacement set.
-/

namespace EasyEmitter

/-- Event keys (`type EventType = string | number`), modelled as naturals. -/
abbrev Key := Nat

/-- Identity of a listener callable (JS function reference identity):
an index into the listener store. -/
abbrev LId := Nat

/-- Identity of a `wait` promise (and of the `reject` closure it captures). -/
abbrev WId := Nat

/-- A `setTimeout` handle. -/
abbrev TId := Nat

/-- Observable actions a user-supplied listener body may perform when
invoked with `(data, emitter)`: log its invocation together with the
`data` argument, call back into the emitter (`on`/`off`/`once`/`emit`),
or throw. -/
inductive Action where
  | record (tag : Nat)
  | actOn (k : Key) (l : LId)
  | actOff (k : Key) (l : LId)
  | actOnce (k : Key) (l : LId)
  | actEmit (k : Key) (p : Option Nat)
  | actThrow
  deriving Repr, DecidableEq

/-- A callable stored in the listener store: a user callback, the wrapper
built by `once(type, callbackFn)` (which invokes `callbackFn` and then
`off(type, wrapper)`), or the anonymous callback `wait` passes to `once`
(which clears the wait's timer, removes its `reject` from `#waiters` and
resolves the promise with the payload). -/
inductive LDef where
  | user (body : List Action)
  | wrapper (k : Key) (inner : LId)
  | waitCb (w : WId) (t : Option TId)
  deriving Repr, DecidableEq

/-- Rejection reasons used by the source: the strings
`"Event timed out"` (`timedOut`) and `"EventEmitter destroyed"`
(`destroyed`). -/
inductive Reason where
  | timedOut
  | destroyed
  deriving Repr, DecidableEq

/-- State of a `wait` promise, with JS settle-once semantics. -/
inductive PState where
  | pending
  | resolved (v : Option Nat)
  | rejected (r : Reason)
  deriving Repr, DecidableEq

/-- A timer started by `setTimeout` inside `wait`: whether it can still
fire, and which wait promise its callback rejects. -/
structure Timer where
  active : Bool
  wid : WId
  deriving Repr, DecidableEq

/-- The whole system state: the listener store (callable identities), the
emitter's three collections (`calls`, `waiters`, `timeouts`), the promise
and timer tables, a generation counter for `Set` object identities, and a
trace of listener invocations `(tag, data)`.  Payloads are `Option Nat`
(`none` = `undefined`, as `emit`'s `data` is optional). -/
structure EState where
  store : List LDef
  calls : List (Key × Nat × List (Option LId))
  waiters : List WId
  timeouts : List TId
  promises : List PState
  timers : List Timer
  nextGen : Nat
  trace : List (Nat × Option Nat)
  deriving Repr, DecidableEq

/-- A freshly constructed emitter: all collections empty. -/
def initE : EState := ⟨[], [], [], [], [], [], 0, []⟩

/-- Lookup `this.#calls.get(type)` (association list, insertion order). -/
def lookupCalls : List (Key × Nat × List (Option LId)) → Key → Option (Nat × List (Option LId))
  | [], _ => none
  | e :: rest, k => if e.1 = k then some e.2 else lookupCalls rest k

/-- Replace the entry of key `k` (used when mutating an existing `Set`). -/
def updateCalls : List (Key × Nat × List (Option LId)) → Key → Nat × List (Option LId) →
    List (Key × Nat × List (Option LId))
  | [], _, _ => []
  | e :: rest, k, v => if e.1 = k then (k, v) :: rest else e :: updateCalls rest k v

/-- The slot list of `key`'s listener set (empty if the key is absent). -/
def slotsOf (s : EState) (k : Key) : List (Option LId) :=
  match lookupCalls s.calls k with
  | none => []
  | some (_, slots) => slots

/-- The listeners currently registered for `k`, in insertion order
(EMPTY slots skipped): the contents of `this.#calls.get(k)`. -/
def membersOf (s : EState) (k : Key) : List LId :=
  (slotsOf s k).filterMap id

/-- Source `on(type, callbackFn)`: create the key's `Set` if absent, then
`Set.add` — a no-op if the callable is already present, otherwise an
append at the end. -/
def onEv (k : Key) (l : LId) (s : EState) : EState :=
  match lookupCalls s.calls k with
  | none =>
      { s with calls := s.calls ++ [(k, s.nextGen, [some l])], nextGen := s.nextGen + 1 }
  | some (g, slots) =>
      if some l ∈ slots then s
      else { s with calls := updateCalls s.calls k (g, slots ++ [some l]) }

/-- Source `off(type, callbackFn)`: `this.#calls.get(type)?.delete(callbackFn)`
— per the ECMAScript specification, deletion replaces the entry with an
EMPTY slot. -/
def offEv (k : Key) (l : LId) (s : EState) : EState :=
  match lookupCalls s.calls k with
  | none => s
  | some (g, slots) =>
      { s with calls := updateCalls s.calls k (g, slots.map fun o => if o = some l then none else o) }

/-- Source `once(type, callbackFn)`: allocate a fresh wrapper callable around
`cb` and register it with `on`. -/
def onceEv (k : Key) (cb : LId) (s : EState) : EState :=
  let w := s.store.length
  onEv k w { s with store := s.store ++ [LDef.wrapper k cb] }

/-- Reject promise `w` with reason `r` if it is still pending
(JS promises settle at most once). -/
def rejectIdx (r : Reason) (ps : List PState) (w : WId) : List PState :=
  if ps[w]? = some PState.pending then ps.set w (PState.rejected r) else ps

/-- Resolve promise `w` with value `v` if it is still pending. -/
def resolveIdx (v : Option Nat) (ps : List PState) (w : WId) : List PState :=
  if ps[w]? = some PState.pending then ps.set w (PState.resolved v) else ps

/-- Host `clearTimeout(t)`: deactivate timer `t`; unknown handles are ignored. -/
def cancelIdx (ts : List Timer) (t : TId) : List Timer :=
  match ts[t]? with
  | some tm => ts.set t { tm with active := false }
  | none => ts

/-- Call `clearTimeout(t)` where `t` may be `undefined` (a no-op then). -/
def clearTimeoutEv : Option TId → EState → EState
  | none, s => s
  | some t, s => { s with timers := cancelIdx s.timers t }

/-- Body of the callback `wait` registers via `once`:
`clearTimeout(t); this.#waiters.delete(reject); resolve(data);`.
Note that it does not delete `t` from `this.#timeouts`. -/
def waitFire (w : WId) (t : Option TId) (p : Option Nat) (s : EState) : EState :=
  let s1 := clearTimeoutEv t s
  let s2 := { s1 with waiters := s1.waiters.erase w }
  { s2 with promises := resolveIdx p s2.promises w }

/-- Source `wait(type, timeout?)`: create a pending promise, add its `reject` to
`#waiters`; if `timeout` is truthy (given and nonzero) start a timer and
add its handle to `#timeouts`; finally `once(type, cb)` with the resolve
callback.  Returns the new state and the promise's id. -/
def waitEv (k : Key) (timeout : Option Nat) (s : EState) : EState × WId :=
  let w := s.promises.length
  let s1 := { s with promises := s.promises ++ [PState.pending], waiters := s.waiters ++ [w] }
  let st : EState × Option TId :=
    match timeout with
    | some T =>
        if T ≠ 0 then
          ({ s1 with timers := s1.timers ++ [⟨true, w⟩], timeouts := s1.timeouts ++ [s1.timers.length] },
           some s1.timers.length)
        else (s1, none)
    | none => (s1, none)
  let c := st.1.store.length
  (onceEv k c { st.1 with store := st.1.store ++ [LDef.waitCb w st.2] }, w)

/-- The host fires timer `t` (only possible while it is active: it was
neither cancelled nor already fired).  The timer callback runs
`if (t !== undefined) this.#timeouts.delete(t); reject("Event timed out")`.
It does not remove the stale `once` listener from the registry. -/
def fireTimer (t : TId) (s : EState) : EState :=
  match s.timers[t]? with
  | some tm =>
      if tm.active then
        { s with timers := s.timers.set t { tm with active := false },
                 timeouts := s.timeouts.erase t,
                 promises := rejectIdx Reason.timedOut s.promises tm.wid }
      else s
  | none => s

/-- Source `destroy()`: reject every `reject` in `#waiters` with
`"EventEmitter destroyed"`, `clearTimeout` every handle in `#timeouts`,
clear each key's `Set` and clear the `#calls` map.  The three loops touch
disjoint state (the promise table, the timer table, and the registry), so
they are modelled as three independent field updates.  Note that the
source never clears the `#waiters` and `#timeouts` sets themselves. -/
def destroyEv (s : EState) : EState :=
  { s with promises := s.waiters.foldl (rejectIdx Reason.destroyed) s.promises,
           timers := s.timeouts.foldl cancelIdx s.timers,
           calls := [] }

/-- Result of running emitter code that may invoke listeners: normal
completion, an exception propagating out of `emit` (the emitter catches
nothing), or fuel exhaustion (`out` — the run was cut short, proving
nothing about the program). -/
inductive Res where
  | ok (s : EState)
  | thrown (s : EState)
  | out
  deriving Repr, DecidableEq

/-- Work items of the interpreter: start an `emit`, the `for … of` cursor
loop over a key's slot list (with the iterated `Set`'s generation), the
invocation of one callable, and a user body's remaining actions (with the
`data` argument in scope). -/
inductive Job where
  | jEmit (k : Key) (p : Option Nat)
  | jLoop (k : Key) (g : Nat) (p : Option Nat) (c : Nat)
  | jRun (self : LId) (p : Option Nat)
  | jActs (p : Option Nat) (body : List Action)
  deriving Repr, DecidableEq

/-- Fuel-indexed interpreter.  `emit` re-reads the slot list at every
cursor step (live iteration); the cursor skips EMPTY slots and stops past
the end of the (possibly grown) list, or when the iterated `Set` object
is gone (key absent or generation changed, which only `destroy` causes —
and `destroy` also empties the old object, so the iterator sees nothing
more).  A `once` wrapper invokes its inner callback and only then removes
itself, so a throwing callback leaves the wrapper registered.  A thrown
exception aborts the remaining iteration and propagates. -/
def go : Nat → Job → EState → Res
  | 0, _, _ => Res.out
  | f+1, Job.jEmit k p, s =>
      match lookupCalls s.calls k with
      | none => Res.ok s
      | some (g, _) => go f (Job.jLoop k g p 0) s
  | f+1, Job.jLoop k g p c, s =>
      match lookupCalls s.calls k with
      | none => Res.ok s
      | some (g', slots) =>
          if g' = g then
            match slots[c]? with
            | none => Res.ok s
            | some none => go f (Job.jLoop k g p (c+1)) s
            | some (some l) =>
                match go f (Job.jRun l p) s with
                | Res.ok s' => go f (Job.jLoop k g p (c+1)) s'
                | r => r
          else Res.ok s
  | f+1, Job.jRun self p, s =>
      match s.store[self]? with
      | none => Res.ok s
      | some (LDef.user body) => go f (Job.jActs p body) s
      | some (LDef.wrapper k inner) =>
          match go f (Job.jRun inner p) s with
          | Res.ok s' => Res.ok (offEv k self s')
          | r => r
      | some (LDef.waitCb w t) => Res.ok (waitFire w t p s)
  | _+1, Job.jActs _ [], s => Res.ok s
  | f+1, Job.jActs p (a :: rest), s =>
      match a with
      | Action.record tag => go f (Job.jActs p rest) { s with trace := s.trace ++ [(tag, p)] }
      | Action.actOn k l => go f (Job.jActs p rest) (onEv k l s)
      | Action.actOff k l => go f (Job.jActs p rest) (offEv k l s)
      | Action.actOnce k l => go f (Job.jActs p rest) (onceEv k l s)
      | Action.actEmit k q =>
          match go f (Job.jEmit k q) s with
          | Res.ok s' => go f (Job.jActs p rest) s'
          | r => r
      | Action.actThrow => Res.thrown s

/-- Source `emit(type, data?)`: iterate `this.#calls.get(type) ?? []`, invoking
each callable with `(data, this)`. -/
def emitEv (fuel : Nat) (k : Key) (p : Option Nat) (s : EState) : Res :=
  go fuel (Job.jEmit k p) s

/-! ## Generic list helpers -/

theorem getElem?_append_length_add {α : Type} (xs ys : List α) (n : Nat) :
    (xs ++ ys)[xs.length + n]? = ys[n]? := by
  rw [List.getElem?_append_right (by omega)]
  congr 1
  omega

theorem set_concat_length {α : Type} (xs : List α) (a b : α) :
    (xs ++ [a]).set xs.length b = xs ++ [b] := by
  induction xs with
  | nil => rfl
  | cons x xs ih => simp [ih]

theorem set_getElem?_self {α : Type} (xs : List α) (i : Nat) (a : α)
    (h : xs[i]? = some a) : xs.set i a = xs := by
  induction xs generalizing i with
  | nil => simp at h
  | cons x xs ih =>
    cases i with
    | zero => simp_all
    | succ n =>
      simp only [List.getElem?_cons_succ] at h
      simpa using ih n h

/-! ## Registry (`#calls`) helpers -/

theorem lookupCalls_append_none {xs : List (Key × Nat × List (Option LId))} {k : Key}
    (h : lookupCalls xs k = none) (ys : List (Key × Nat × List (Option LId))) :
    lookupCalls (xs ++ ys) k = lookupCalls ys k := by
  induction xs with
  | nil => rfl
  | cons e xs ih =>
    by_cases he : e.1 = k
    · simp [lookupCalls, he] at h
    · simp only [lookupCalls, he, if_false, List.cons_append] at h ⊢
      exact ih h

theorem lookupCalls_updateCalls_self {xs : List (Key × Nat × List (Option LId))} {k : Key}
    {v0 : Nat × List (Option LId)} (h : lookupCalls xs k = some v0) (v : Nat × List (Option LId)) :
    lookupCalls (updateCalls xs k v) k = some v := by
  induction xs with
  | nil => simp [lookupCalls] at h
  | cons e xs ih =>
    by_cases he : e.1 = k
    · simp [lookupCalls, updateCalls, he]
    · simp only [lookupCalls, updateCalls, he, if_false] at h ⊢
      exact ih h

theorem updateCalls_self {xs : List (Key × Nat × List (Option LId))} {k : Key}
    {v : Nat × List (Option LId)} (h : lookupCalls xs k = some v) :
    updateCalls xs k v = xs := by
  induction xs with
  | nil => rfl
  | cons e xs ih =>
    obtain ⟨k', v'⟩ := e
    by_cases he : k' = k
    · subst he
      have hv : v' = v := by simpa [lookupCalls] using h
      subst hv
      simp [updateCalls]
    · simp only [lookupCalls, he, if_false] at h
      simp [updateCalls, he, ih h]

theorem updateCalls_append_none {xs : List (Key × Nat × List (Option LId))} {k : Key}
    (h : lookupCalls xs k = none) (g : Nat) (v v' : List (Option LId)) :
    updateCalls (xs ++ [(k, g, v)]) k (g, v') = xs ++ [(k, g, v')] := by
  induction xs with
  | nil => simp [updateCalls]
  | cons e xs ih =>
    by_cases he : e.1 = k
    · simp [lookupCalls, he] at h
    · simp only [lookupCalls, he, if_false] at h
      simp [updateCalls, he, ih h]

/-! ## Promise-table helpers: rejecting the pending waiters is settle-once -/

theorem rejectIdx_get_self {ps : List PState} {w : Nat}
    (h : ps[w]? = some PState.pending) (r : Reason) :
    (rejectIdx r ps w)[w]? = some (PState.rejected r) := by
  have hw : w < ps.length := by
    rcases List.getElem?_eq_some_iff.mp h with ⟨hl, _⟩
    exact hl
  simp [rejectIdx, h, hw]

theorem rejectIdx_get_other {ps : List PState} {w x : Nat} (hne : x ≠ w) (r : Reason) :
    (rejectIdx r ps x)[w]? = ps[w]? := by
  unfold rejectIdx
  split
  · exact List.getElem?_set_ne hne
  · rfl

theorem rejectIdx_get_stable {ps : List PState} {w : Nat}
    (h : ps[w]? ≠ some PState.pending) (r : Reason) (x : Nat) :
    (rejectIdx r ps x)[w]? = ps[w]? := by
  by_cases hx : x = w
  · subst hx
    unfold rejectIdx
    split
    · exact absurd ‹ps[x]? = some PState.pending› h
    · rfl
  · exact rejectIdx_get_other hx r

theorem foldl_rejectIdx_stable {ws : List WId} {ps : List PState} {w : Nat}
    (h : ps[w]? ≠ some PState.pending) (r : Reason) :
    (ws.foldl (rejectIdx r) ps)[w]? = ps[w]? := by
  induction ws generalizing ps with
  | nil => rfl
  | cons x ws ih =>
    simp only [List.foldl_cons]
    rw [ih (by rw [rejectIdx_get_stable h r x]; exact h)]
    exact rejectIdx_get_stable h r x

theorem foldl_rejectIdx_mem {ws : List WId} {ps : List PState} {w : Nat}
    (hmem : w ∈ ws) (h : ps[w]? = some PState.pending) (r : Reason) :
    (ws.foldl (rejectIdx r) ps)[w]? = some (PState.rejected r) := by
  induction ws generalizing ps with
  | nil => simp at hmem
  | cons x ws ih =>
    simp only [List.foldl_cons]
    by_cases hx : x = w
    · subst hx
      have h2 : (rejectIdx r ps x)[x]? = some (PState.rejected r) := rejectIdx_get_self h r
      rw [foldl_rejectIdx_stable (by rw [h2]; simp) r]
      exact h2
    · rcases List.mem_cons.mp hmem with h' | h'
      · exact absurd h'.symm hx
      · exact ih h' (by rw [rejectIdx_get_other hx]; exact h)

theorem foldl_rejectIdx_not_pending {ws : List WId} {ps : List PState} {w : Nat}
    (hmem : w ∈ ws) (r : Reason) :
    (ws.foldl (rejectIdx r) ps)[w]? ≠ some PState.pending := by
  by_cases h : ps[w]? = some PState.pending
  · rw [foldl_rejectIdx_mem hmem h r]; simp
  · rw [foldl_rejectIdx_stable h r]; exact h

theorem foldl_rejectIdx_noop {ws : List WId} {ps : List PState}
    (h : ∀ w ∈ ws, ps[w]? ≠ some PState.pending) (r : Reason) :
    ws.foldl (rejectIdx r) ps = ps := by
  induction ws with
  | nil => rfl
  | cons x ws ih =>
    simp only [List.foldl_cons]
    have hx : rejectIdx r ps x = ps := by
      unfold rejectIdx
      rw [if_neg (h x (by simp))]
    rw [hx]
    exact ih fun w hw => h w (by simp [hw])

/-! ## Timer-table helpers: `clearTimeout` of every tracked handle -/

/-- Timer slot `t` can no longer fire (absent or deactivated). -/
def Cancelled (ts : List Timer) (t : TId) : Prop :=
  ∀ tm, ts[t]? = some tm → tm.active = false

theorem cancelIdx_cancelled_self (ts : List Timer) (t : TId) :
    Cancelled (cancelIdx ts t) t := by
  intro tm' h
  unfold cancelIdx at h
  cases hts : ts[t]? with
  | none => rw [hts] at h; rw [hts] at h; simp_all
  | some tm =>
    rw [hts] at h
    have hlt : t < ts.length := by
      rcases List.getElem?_eq_some_iff.mp hts with ⟨hl, _⟩
      exact hl
    rw [List.getElem?_set_self (by simpa using hlt)] at h
    cases h
    rfl

theorem cancelIdx_cancelled_stable {ts : List Timer} {t : TId}
    (h : Cancelled ts t) (x : TId) : Cancelled (cancelIdx ts x) t := by
  by_cases hx : x = t
  · subst hx; exact cancelIdx_cancelled_self ts x
  · intro tm' h'
    unfold cancelIdx at h'
    cases hts : ts[x]? with
    | none => rw [hts] at h'; exact h tm' h'
    | some tm =>
      rw [hts, List.getElem?_set_ne hx] at h'
      exact h tm' h'

theorem foldl_cancelIdx_stable {l : List TId} {ts : List Timer} {t : TId}
    (h : Cancelled ts t) : Cancelled (l.foldl cancelIdx ts) t := by
  induction l generalizing ts with
  | nil => exact h
  | cons x l ih =>
    simp only [List.foldl_cons]
    exact ih (cancelIdx_cancelled_stable h x)

theorem foldl_cancelIdx_mem {l : List TId} {ts : List Timer} {t : TId} (hmem : t ∈ l) :
    Cancelled (l.foldl cancelIdx ts) t := by
  induction l generalizing ts with
  | nil => simp at hmem
  | cons x l ih =>
    simp only [List.foldl_cons]
    by_cases hx : x = t
    · subst hx
      exact foldl_cancelIdx_stable (cancelIdx_cancelled_self ts x)
    · rcases List.mem_cons.mp hmem with h' | h'
      · exact absurd h'.symm hx
      · exact ih h'

theorem cancelIdx_noop {ts : List Timer} {t : TId} (h : Cancelled ts t) :
    cancelIdx ts t = ts := by
  unfold cancelIdx
  cases hts : ts[t]? with
  | none => rfl
  | some tm =>
    have : tm.active = false := h tm hts
    obtain ⟨a, w⟩ := tm
    cases this
    exact set_getElem?_self ts t _ hts

theorem foldl_cancelIdx_noop {l : List TId} {ts : List Timer}
    (h : ∀ t ∈ l, Cancelled ts t) : l.foldl cancelIdx ts = ts := by
  induction l with
  | nil => rfl
  | cons x l ih =>
    simp only [List.foldl_cons, cancelIdx_noop (h x (by simp))]
    exact ih fun t ht => h t (by simp [ht])

/-! ## Facts about `destroy`, `on` and `off` -/

theorem destroyEv_idem (s : EState) : destroyEv (destroyEv s) = destroyEv s := by
  unfold destroyEv
  dsimp only
  rw [foldl_rejectIdx_noop (fun w hw => foldl_rejectIdx_not_pending hw Reason.destroyed)
        Reason.destroyed,
      foldl_cancelIdx_noop (fun t ht => foldl_cancelIdx_mem ht)]

theorem mem_filterMap_id {slots : List (Option LId)} {l : LId} :
    l ∈ slots.filterMap id ↔ some l ∈ slots := by
  simp [List.mem_filterMap]

theorem slotsOf_eq_of_lookup {s : EState} {k : Key} {g : Nat} {slots : List (Option LId)}
    (h : lookupCalls s.calls k = some (g, slots)) : slotsOf s k = slots := by
  unfold slotsOf
  rw [h]

theorem slotsOf_eq_of_none {s : EState} {k : Key}
    (h : lookupCalls s.calls k = none) : slotsOf s k = [] := by
  unfold slotsOf
  rw [h]

theorem onEv_idem (k : Key) (l : LId) (s : EState) :
    onEv k l (onEv k l s) = onEv k l s := by
  cases hlk : lookupCalls s.calls k with
  | none =>
    have h1 : onEv k l s =
        { s with calls := s.calls ++ [(k, s.nextGen, [some l])], nextGen := s.nextGen + 1 } := by
      unfold onEv
      rw [hlk]
    rw [h1]
    unfold onEv
    dsimp only
    rw [lookupCalls_append_none hlk]
    simp [lookupCalls]
  | some e =>
    obtain ⟨g, slots⟩ := e
    by_cases hmem : some l ∈ slots
    · have h1 : onEv k l s = s := by
        unfold onEv
        rw [hlk]
        simp [hmem]
      rw [h1, h1]
    · have h1 : onEv k l s = { s with calls := updateCalls s.calls k (g, slots ++ [some l]) } := by
        unfold onEv
        rw [hlk]
        simp [hmem]
      rw [h1]
      unfold onEv
      dsimp only
      rw [lookupCalls_updateCalls_self hlk]
      simp

theorem onEv_members_fresh {s : EState} {k : Key} {l : LId} (h : l ∉ membersOf s k) :
    membersOf (onEv k l s) k = membersOf s k ++ [l] := by
  cases hlk : lookupCalls s.calls k with
  | none =>
    have h1 : onEv k l s =
        { s with calls := s.calls ++ [(k, s.nextGen, [some l])], nextGen := s.nextGen + 1 } := by
      unfold onEv
      rw [hlk]
    rw [h1]
    unfold membersOf slotsOf
    dsimp only
    rw [lookupCalls_append_none hlk, hlk]
    simp [lookupCalls]
  | some e =>
    obtain ⟨g, slots⟩ := e
    have hm : some l ∉ slots := by
      intro hc
      apply h
      unfold membersOf
      rw [slotsOf_eq_of_lookup hlk]
      exact mem_filterMap_id.mpr hc
    have h1 : onEv k l s = { s with calls := updateCalls s.calls k (g, slots ++ [some l]) } := by
      unfold onEv
      rw [hlk]
      simp [hm]
    rw [h1]
    unfold membersOf slotsOf
    dsimp only
    rw [lookupCalls_updateCalls_self hlk, hlk]
    simp

theorem offEv_absent {s : EState} {k : Key} {l : LId} (h : l ∉ membersOf s k) :
    offEv k l s = s := by
  unfold offEv
  cases hlk : lookupCalls s.calls k with
  | none => rfl
  | some e =>
    obtain ⟨g, slots⟩ := e
    have hm : some l ∉ slots := by
      intro hc
      apply h
      unfold membersOf
      rw [slotsOf_eq_of_lookup hlk]
      exact mem_filterMap_id.mpr hc
    have hmap : slots.map (fun o => if o = some l then none else o) = slots := by
      have : ∀ o ∈ slots, (if o = some l then none else o) = o := by
        intro o ho
        rw [if_neg]
        intro hol
        exact hm (hol ▸ ho)
      rw [List.map_congr_left this]
      exact List.map_id' slots
    simp only [hmap]
    rw [updateCalls_self hlk]

/-! ## Evaluation of `emit` over non-re-entrant (recorder) listeners -/

/-- Invoking a user callback whose body only logs its invocation appends
one trace entry and changes nothing else. -/
theorem go_run_recorder (f : Nat) {s : EState} {l : LId} {t : Nat} (p : Option Nat)
    (h : s.store[l]? = some (LDef.user [Action.record t])) :
    go (f + 3) (Job.jRun l p) s = Res.ok { s with trace := s.trace ++ [(t, p)] } := by
  show go (f + 2 + 1) _ _ = _
  simp only [go]
  rw [h]
  simp only [go]

/-- The `emit` cursor loop over a slot list of recorder listeners logs
each non-EMPTY slot once, in slot order. -/
theorem go_loop_recorders (k : Key) (g : Nat) (p : Option Nat) (tag : LId → Nat) :
    ∀ (fuel : Nat) (s : EState) (c : Nat) (slots : List (Option LId)),
    lookupCalls s.calls k = some (g, slots) →
    (∀ l ∈ (slots.drop c).filterMap id, s.store[l]? = some (LDef.user [Action.record (tag l)])) →
    slots.length - c + 4 ≤ fuel →
    go fuel (Job.jLoop k g p c) s =
      Res.ok { s with trace := s.trace ++ ((slots.drop c).filterMap id).map fun l => (tag l, p) } := by
  intro fuel
  induction fuel using Nat.strong_induction_on with
  | _ fuel ih =>
    intro s c slots hlk hrec hf
    obtain ⟨f, rfl⟩ : ∃ f, fuel = f + 1 := ⟨fuel - 1, by omega⟩
    simp only [go]
    rw [hlk]
    dsimp only
    rw [if_pos rfl]
    cases hc : slots[c]? with
    | none =>
      have hlen : slots.length ≤ c := List.getElem?_eq_none_iff.mp hc
      rw [List.drop_eq_nil_of_le hlen]
      simp
    | some o =>
      have hclt : c < slots.length := by
        by_contra hcl
        rw [List.getElem?_eq_none_iff.mpr (by omega)] at hc
        exact Option.noConfusion hc
      have hdrop : slots.drop c = slots[c] :: slots.drop (c + 1) :=
        List.drop_eq_getElem_cons hclt
      have hcv : slots[c] = o := by
        rcases List.getElem?_eq_some_iff.mp hc with ⟨h1, h2⟩
        exact h2
      rw [hcv] at hdrop
      cases o with
      | none =>
        dsimp only
        rw [hdrop]
        simp only [List.filterMap_cons]
        dsimp only [id]
        exact ih f (by omega) s (c + 1) slots hlk
          (fun l hl => hrec l (by rw [hdrop]; simpa using hl)) (by omega)
      | some l =>
        have hl0 : l ∈ (slots.drop c).filterMap id := by
          rw [hdrop]
          simp
        obtain ⟨f3, rfl⟩ : ∃ f3, f = f3 + 3 := ⟨f - 3, by omega⟩
        dsimp only
        rw [go_run_recorder f3 p (hrec l hl0)]
        have hrest := ih (f3 + 3) (by omega)
          { s with trace := s.trace ++ [(tag l, p)] } (c + 1) slots hlk
          (fun l' hl' => hrec l' (by rw [hdrop]; simp; right; simpa using hl')) (by omega)
        dsimp only
        rw [hrest]
        rw [hdrop]
        simp

/-- Running one `emit` over recorder-only listeners: the trace is
extended by one entry per registered listener, in registration order,
and nothing else changes. -/
theorem emitEv_recorders (s : EState) (k : Key) (p : Option Nat)
    (tag : LId → Nat) (fuel : Nat)
    (hrec : ∀ l ∈ membersOf s k, s.store[l]? = some (LDef.user [Action.record (tag l)]))
    (hfuel : (slotsOf s k).length + 5 ≤ fuel) :
    emitEv fuel k p s =
      Res.ok { s with trace := s.trace ++ (membersOf s k).map fun l => (tag l, p) } := by
  obtain ⟨f, rfl⟩ : ∃ f, fuel = f + 1 := ⟨fuel - 1, by omega⟩
  unfold emitEv
  simp only [go]
  cases hlk : lookupCalls s.calls k with
  | none =>
    have hm : membersOf s k = [] := by
      unfold membersOf
      rw [slotsOf_eq_of_none hlk]
      rfl
    rw [hm]
    simp
  | some e =>
    obtain ⟨g, slots⟩ := e
    dsimp only
    have hm : membersOf s k = slots.filterMap id := by
      unfold membersOf
      rw [slotsOf_eq_of_lookup hlk]
    have hs : slotsOf s k = slots := slotsOf_eq_of_lookup hlk
    rw [hm]
    have := go_loop_recorders k g p tag f s 0 slots hlk
      (by rw [List.drop_zero, ← hm]; exact hrec) (by rw [hs] at hfuel; omega)
    rw [List.drop_zero] at this
    exact this

/-- The `store` field is untouched by `on`. -/
theorem onEv_store (k : Key) (l : LId) (s : EState) : (onEv k l s).store = s.store := by
  unfold onEv
  split
  · rfl
  · split <;> rfl

/-- The `trace` field is untouched by `on`. -/
theorem onEv_trace (k : Key) (l : LId) (s : EState) : (onEv k l s).trace = s.trace := by
  unfold onEv
  split
  · rfl
  · split <;> rfl

/-- Registering via `on` grows the key's slot list by at most one entry. -/
theorem slotsOf_onEv_len (k : Key) (l : LId) (s : EState) :
    (slotsOf (onEv k l s) k).length ≤ (slotsOf s k).length + 1 := by
  cases hlk : lookupCalls s.calls k with
  | none =>
    have h1 : onEv k l s =
        { s with calls := s.calls ++ [(k, s.nextGen, [some l])], nextGen := s.nextGen + 1 } := by
      unfold onEv
      rw [hlk]
    rw [h1]
    unfold slotsOf
    dsimp only
    rw [lookupCalls_append_none hlk]
    simp [lookupCalls]
  | some e =>
    obtain ⟨g, slots⟩ := e
    by_cases hmem : some l ∈ slots
    · have h1 : onEv k l s = s := by
        unfold onEv
        rw [hlk]
        simp [hmem]
      rw [h1]
      omega
    · have h1 : onEv k l s = { s with calls := updateCalls s.calls k (g, slots ++ [some l]) } := by
        unfold onEv
        rw [hlk]
        simp [hmem]
      rw [h1]
      unfold slotsOf
      dsimp only
      rw [lookupCalls_updateCalls_self hlk, hlk]
      simp

/-- The `calls` registry is untouched by the wait-resolve callback. -/
theorem waitFire_calls (w : WId) (t : Option TId) (p : Option Nat) (s : EState) :
    (waitFire w t p s).calls = s.calls := by
  cases t <;> rfl

/-- The promise table is untouched by `off`. -/
theorem offEv_promises (k : Key) (l : LId) (s : EState) :
    (offEv k l s).promises = s.promises := by
  unfold offEv
  split <;> rfl

/-- Effect of the wait-resolve callback on the promise table. -/
theorem waitFire_promises (w : WId) (t : Option TId) (p : Option Nat) (s : EState) :
    (waitFire w t p s).promises = resolveIdx p s.promises w := by
  cases t <;> rfl

/-- Emitting on a key whose set holds exactly the `once` wrapper of a
`wait`: the wrapper runs the resolve callback and then removes itself. -/
theorem emit_wait_wrapper (s : EState) (k : Key) (g wi ci w : Nat) (tOpt : Option TId)
    (p : Option Nat)
    (hlk : lookupCalls s.calls k = some (g, [some wi]))
    (hwi : s.store[wi]? = some (LDef.wrapper k ci))
    (hci : s.store[ci]? = some (LDef.waitCb w tOpt)) :
    emitEv 9 k p s = Res.ok (offEv k wi (waitFire w tOpt p s)) := by
  have hlk2 : lookupCalls (offEv k wi (waitFire w tOpt p s)).calls k = some (g, [none]) := by
    unfold offEv
    rw [waitFire_calls, hlk]
    dsimp only
    have hm : ([some wi].map fun o => if o = some wi then none else o) = [none] := by simp
    rw [hm]
    exact lookupCalls_updateCalls_self hlk _
  unfold emitEv
  simp [go, hlk, hwi, hci, hlk2]

/-- Computed state after `wait(k, T)` (truthy `T`) on a state where key
`k` is unregistered: promise, waiter, timer, tracked handle, the resolve
callback in the store, and its `once` wrapper registered under `k`. -/
def waitState (s : EState) (k : Key) : EState :=
  { store := s.store ++ [LDef.waitCb s.promises.length (some s.timers.length),
                         LDef.wrapper k s.store.length],
    calls := s.calls ++ [(k, s.nextGen, [some (s.store.length + 1)])],
    waiters := s.waiters ++ [s.promises.length],
    timeouts := s.timeouts ++ [s.timers.length],
    promises := s.promises ++ [PState.pending],
    timers := s.timers ++ [⟨true, s.promises.length⟩],
    nextGen := s.nextGen + 1,
    trace := s.trace }

/-- Calling `wait(k, T)` with a truthy timeout evaluates to `waitState` and
returns the fresh promise. -/
theorem waitEv_eq (s : EState) (k : Key) (T : Nat) (hT : T ≠ 0)
    (hk : lookupCalls s.calls k = none) :
    waitEv k (some T) s = (waitState s k, s.promises.length) := by
  simp [waitEv, onceEv, onEv, hT, hk, waitState]

/-- Computed state after the wait's timer fires: the timer is spent, its
handle was deleted from `#timeouts` by the timer callback, and the
promise is rejected with `TimedOut`.  The `once` wrapper is still
registered. -/
def firedState (s : EState) (k : Key) : EState :=
  { waitState s k with
    timers := s.timers ++ [⟨false, s.promises.length⟩]
    timeouts := s.timeouts
    promises := s.promises ++ [PState.rejected Reason.timedOut] }

/-- Firing the wait's (still active) timer produces `firedState`. -/
theorem fireTimer_waitState (s : EState) (k : Key) (hfr : s.timers.length ∉ s.timeouts) :
    fireTimer s.timers.length (waitState s k) = firedState s k := by
  simp [fireTimer, waitState, firedState, rejectIdx, List.getElem?_concat_length,
        set_concat_length, List.erase_append_right _ hfr]

/-! ## Claim theorems -/

/-- C1: for every key `K`, payload `P`, and registered listeners of `K`
that are plain (non-re-entrant) callbacks, `emit(K, P)` invokes all of
them in registration order, each exactly once with argument `P` (the
second argument is the emitting instance itself), synchronously before
`emit` returns (the invocations are exactly the trace extension of the
single `emit` evaluation); and a listener not yet registered for `K` is
appended by `on(K, L)` at the end of the registration order, so a single
`emit` after `on(K, L)` invokes `L` exactly once. -/
theorem emit_invokes_listeners_in_order (s : EState) (k : Key) (p : Option Nat)
    (tag : LId → Nat) (fuel : Nat)
    (hrec : ∀ l ∈ membersOf s k, s.store[l]? = some (LDef.user [Action.record (tag l)]))
    (hfuel : (slotsOf s k).length + 5 ≤ fuel) :
    (emitEv fuel k p s =
      Res.ok { s with trace := s.trace ++ (membersOf s k).map fun l => (tag l, p) }) ∧
    (∀ l', l' ∉ membersOf s k → membersOf (onEv k l' s) k = membersOf s k ++ [l']) :=
  ⟨emitEv_recorders s k p tag fuel hrec hfuel, fun _ hl' => onEv_members_fresh hl'⟩

/-- Sample state for the C1 witness: two recorder listeners registered
for key 0 in order. -/
def c1Sample : EState :=
  { initE with store := [LDef.user [Action.record 10], LDef.user [Action.record 11]],
               calls := [(0, 0, [some 0, some 1])], nextGen := 1 }

/-- Witness for C1 at a concrete input: both hypotheses hold for
`c1Sample` and the emit produces the two invocations in order. -/
theorem emit_invokes_listeners_in_order_witness :
    emitEv 9 0 (some 7) c1Sample =
      Res.ok { c1Sample with trace := (membersOf c1Sample 0).map fun l => (l + 10, some 7) } :=
  (emit_invokes_listeners_in_order c1Sample 0 (some 7) (fun l => l + 10) 9
    (by decide) (by decide)).1

/-- State after `once(k, cb)` on an emitter whose store holds the single
user callback `cb` (id 0) that records `t`: the wrapper gets id 1. -/
def c7Base (k : Key) (t : Nat) : EState :=
  onceEv k 0 { initE with store := [LDef.user [Action.record t]] }

/-- State after the first `emit(k, p1)` on `c7Base k t`: the callback ran
once and the wrapper's slot is EMPTY. -/
def c7Mid (k : Key) (t : Nat) (p1 : Option Nat) : EState :=
  { store := [LDef.user [Action.record t], LDef.wrapper k 0],
    calls := [(k, 0, [none])], waiters := [], timeouts := [],
    promises := [], timers := [], nextGen := 1, trace := [(t, p1)] }

/-- C7: for every key `K` and listener `L`, `once(K, L)` followed by two
`emit(K, _)` invokes `L` exactly once in total (the final trace is the
single entry from the first emit), and after the first emit the
once-registered wrapper is no longer present in `K`'s listener set. -/
theorem once_invoked_exactly_once (k : Key) (t : Nat) (p1 p2 : Option Nat) :
    emitEv 9 k p1 (c7Base k t) = Res.ok (c7Mid k t p1) ∧
    membersOf (c7Mid k t p1) k = [] ∧
    emitEv 9 k p2 (c7Mid k t p1) = Res.ok (c7Mid k t p1) ∧
    (c7Mid k t p1).trace = [(t, p1)] := by
  refine ⟨?_, ?_, ?_, rfl⟩
  · simp [emitEv, c7Base, c7Mid, onceEv, onEv, initE, go, lookupCalls, offEv, updateCalls]
  · simp [membersOf, slotsOf, c7Mid, lookupCalls]
  · simp [emitEv, c7Mid, go, lookupCalls]

/-- State after `once(k, cb)` where the user callback (id 0) records 5
and then throws. -/
def c10Base (k : Key) : EState :=
  onceEv k 0 { initE with store := [LDef.user [Action.record 5, Action.actThrow]] }

/-- State when the first `emit(k, p1)` on `c10Base k` propagates the
callback's exception: the wrapper (id 1) is still registered. -/
def c10Mid (k : Key) (p1 : Option Nat) : EState :=
  { store := [LDef.user [Action.record 5, Action.actThrow], LDef.wrapper k 0],
    calls := [(k, 0, [some 1])], waiters := [], timeouts := [],
    promises := [], timers := [], nextGen := 1, trace := [(5, p1)] }

/-- C10: if the callback passed to `once(K, L)` throws during an emit,
the wrapper's self-removal (which runs only after the callback returns
normally) is skipped, so the wrapper stays in `K`'s listener set and the
callback is invoked again by a later `emit(K, _)`. -/
theorem once_throwing_callback_not_removed (k : Key) (p1 p2 : Option Nat) :
    emitEv 9 k p1 (c10Base k) = Res.thrown (c10Mid k p1) ∧
    membersOf (c10Mid k p1) k = [1] ∧
    emitEv 9 k p2 (c10Mid k p1) =
      Res.thrown { c10Mid k p1 with trace := [(5, p1), (5, p2)] } := by
  refine ⟨?_, ?_, ?_⟩
  · simp [emitEv, c10Base, c10Mid, onceEv, onEv, initE, go, lookupCalls]
  · simp [membersOf, slotsOf, c10Mid, lookupCalls]
  · simp [emitEv, c10Mid, go, lookupCalls]

/-- Test state for the iteration semantics of `emit`: key `k` has
listeners 0, 1, 2 registered; listener 0, when invoked, removes listener
1 (not yet reached) and registers the fresh listener 3; listeners 1–3
are recorders. -/
def c3State (k : Key) : EState :=
  { initE with
    store := [LDef.user [Action.record 0, Action.actOff k 1, Action.actOn k 3],
              LDef.user [Action.record 1], LDef.user [Action.record 2],
              LDef.user [Action.record 3]],
    calls := [(k, 0, [some 0, some 1, some 2])], nextGen := 1 }

/-- C3 (counterexample): snapshot iteration fails on the code.  Listener
3 is not registered for key 0 when `emit` starts, is added by listener 0
during the pass, and is nevertheless invoked in that same pass (its tag
appears in the trace). -/
theorem emit_snapshot_counterexample :
    (3 : LId) ∉ membersOf (c3State 0) 0 ∧
    emitEv 30 0 (some 5) (c3State 0) =
      Res.ok { c3State 0 with
        calls := [(0, 0, [some 0, none, some 2, some 3])]
        trace := [(0, some 5), (2, some 5), (3, some 5)] } := by
  decide

/-- C3 (amended): `emit` iterates the listener set live, not as a
snapshot, per JS `Set` semantics.  A listener removed during the pass
before being reached (and not re-added) is skipped — its slot is EMPTY —
while a listener added via `on` during the pass IS invoked in that same
pass; no listener present throughout is invoked twice.  Here listener 0
runs first, removed listener 1 never runs, listener 2 and the newly
added listener 3 each run once, in that order. -/
theorem emit_live_iteration (k : Key) (p : Option Nat) :
    membersOf (c3State k) k = [0, 1, 2] ∧
    emitEv 30 k p (c3State k) =
      Res.ok { c3State k with
        calls := [(k, 0, [some 0, none, some 2, some 3])]
        trace := [(0, p), (2, p), (3, p)] } := by
  constructor
  · simp [membersOf, slotsOf, c3State, lookupCalls, initE]
  · simp [emitEv, c3State, initE, go, lookupCalls, onEv, offEv, updateCalls]

/-- State with one pending `wait(0, 1000)` on a fresh emitter: promise 0
pending, its reject in `#waiters`, timer 0 active and tracked. -/
def c2Wait : EState := (waitEv 0 (some 1000) initE).1

/-- C2 (divergence): after `destroy()` the listener registry is empty and
the pending wait was rejected with `Destroyed` and its timer cancelled,
but the waiters set and the timeout-handle set still hold their entries —
the source never clears `#waiters` or `#timeouts`. -/
theorem destroy_leaves_waiters_and_timeouts :
    (destroyEv c2Wait).calls = [] ∧
    (destroyEv c2Wait).waiters = [0] ∧
    (destroyEv c2Wait).timeouts = [0] ∧
    (destroyEv c2Wait).promises = [PState.rejected Reason.destroyed] ∧
    (destroyEv c2Wait).timers = [⟨false, 0⟩] := by
  decide

/-- State with one pending `wait(0, 50)` on a fresh emitter. -/
def c6Wait : EState := (waitEv 0 (some 50) initE).1

/-- State after `emit(0, 42)` resolves that wait. -/
def c6After : EState :=
  { store := [LDef.waitCb 0 (some 0), LDef.wrapper 0 0],
    calls := [(0, 0, [none])], waiters := [], timeouts := [0],
    promises := [PState.resolved (some 42)],
    timers := [⟨false, 0⟩], nextGen := 1, trace := [] }

/-- C6 (divergence): `emit(0, 42)` before the timeout resolves the wait's
promise with exactly the payload 42, cancels the timer (so the timer can
no longer fire and no `TimedOut` rejection happens later), and removes the
reject from `#waiters` — but the timer's handle 0 is still in the
timeout-tracking set: the resolve callback only calls `clearTimeout(t)`
and never `this.#timeouts.delete(t)`. -/
theorem wait_resolved_by_emit_keeps_handle :
    emitEv 9 0 (some 42) c6Wait = Res.ok c6After ∧
    c6After.promises = [PState.resolved (some 42)] ∧
    c6After.timers = [⟨false, 0⟩] ∧
    fireTimer 0 c6After = c6After ∧
    (0 : TId) ∈ c6After.timeouts := by
  decide

/-- C8: `on`, `off`, `once` and `destroy` are total functions of the
state (they never raise), and the listed edge cases are silent no-ops
that leave the state unchanged: `off` on a key/listener that is absent,
`emit` on a key with zero registered listeners (which also raises
nothing, completing normally), and a repeated `destroy`. -/
theorem operations_never_fail (s : EState) (k1 k2 : Key) (l : LId) (p : Option Nat)
    (fuel : Nat)
    (habs : l ∉ membersOf s k1)
    (hempty : membersOf s k2 = [])
    (hfuel : (slotsOf s k2).length + 5 ≤ fuel) :
    offEv k1 l s = s ∧
    emitEv fuel k2 p s = Res.ok s ∧
    destroyEv (destroyEv s) = destroyEv s := by
  refine ⟨offEv_absent habs, ?_, destroyEv_idem s⟩
  have h := emitEv_recorders s k2 p (fun _ => 0) fuel ?_ hfuel
  · rw [hempty] at h
    simpa using h
  · rw [hempty]
    intro l hl
    simp at hl

/-- Sample state for the C8 witness: key 0 holds one EMPTY slot (zero
registered listeners), key 1 holds listener 0; listener 5 is absent. -/
def c8Sample : EState :=
  { initE with store := [LDef.user [Action.record 0]],
               calls := [(0, 0, [none]), (1, 1, [some 0])], nextGen := 2 }

/-- Witness for C8 at a concrete input. -/
theorem operations_never_fail_witness :
    offEv 1 5 c8Sample = c8Sample ∧
    emitEv 9 0 none c8Sample = Res.ok c8Sample ∧
    destroyEv (destroyEv c8Sample) = destroyEv c8Sample :=
  operations_never_fail c8Sample 1 0 5 none 9 (by decide) (by decide) (by decide)

/-- C9: registering the identical callable twice via `on(K, L)` is
idempotent — the second `on(K, L)` returns the state of the first
unchanged, because listeners are kept in a `Set` keyed by reference
identity — and a subsequent `emit(K, P)` invokes `L` exactly once. -/
theorem on_same_listener_idempotent (s : EState) (k : Key) (l : LId) (t : Nat)
    (p : Option Nat) (fuel : Nat)
    (hl : s.store[l]? = some (LDef.user [Action.record t]))
    (hempty : membersOf s k = [])
    (hfuel : (slotsOf s k).length + 6 ≤ fuel) :
    onEv k l (onEv k l s) = onEv k l s ∧
    emitEv fuel k p (onEv k l (onEv k l s)) =
      Res.ok { onEv k l s with trace := s.trace ++ [(t, p)] } := by
  refine ⟨onEv_idem k l s, ?_⟩
  rw [onEv_idem k l s]
  have hmem : membersOf (onEv k l s) k = [l] := by
    have := onEv_members_fresh (s := s) (k := k) (l := l) (by rw [hempty]; simp)
    rw [hempty] at this
    simpa using this
  have h := emitEv_recorders (onEv k l s) k p (fun _ => t) fuel ?_ ?_
  · rw [hmem] at h
    rw [h, onEv_trace]
    simp
  · rw [hmem]
    intro x hx
    simp at hx
    subst hx
    rw [onEv_store]
    exact hl
  · have := slotsOf_onEv_len k l s
    omega

/-- Sample state for the C9 witness: one stored recorder callback, not
yet registered anywhere. -/
def c9Sample : EState := { initE with store := [LDef.user [Action.record 3]] }

/-- Witness for C9 at a concrete input. -/
theorem on_same_listener_idempotent_witness :
    onEv 0 0 (onEv 0 0 c9Sample) = onEv 0 0 c9Sample ∧
    emitEv 9 0 (some 4) (onEv 0 0 (onEv 0 0 c9Sample)) =
      Res.ok { onEv 0 0 c9Sample with trace := c9Sample.trace ++ [(3, some 4)] } :=
  on_same_listener_idempotent c9Sample 0 0 3 (some 4) 9 (by decide) (by decide) (by decide)

/-- C4: `destroy()` rejects every currently pending wait promise with the
`Destroyed` reason (`"EventEmitter destroyed"`) — not `TimedOut`, even
when the wait has a timeout not yet elapsed, since every tracked timer is
cancelled and firing a cancelled timer is a no-op — clears all listeners
(the registry is empty), and an `emit` on any key performed after
`destroy` invokes no listeners and leaves the state unchanged. -/
theorem destroy_rejects_pending_waits (s : EState) (w : WId) (t : TId) (k : Key)
    (p : Option Nat) (fuel : Nat)
    (hw : w ∈ s.waiters) (hp : s.promises[w]? = some PState.pending)
    (ht : t ∈ s.timeouts) (hfuel : 1 ≤ fuel) :
    (destroyEv s).promises[w]? = some (PState.rejected Reason.destroyed) ∧
    (destroyEv s).calls = [] ∧
    (∀ tm, (destroyEv s).timers[t]? = some tm → tm.active = false) ∧
    fireTimer t (destroyEv s) = destroyEv s ∧
    emitEv fuel k p (destroyEv s) = Res.ok (destroyEv s) := by
  have hc : ∀ tm, (destroyEv s).timers[t]? = some tm → tm.active = false :=
    foldl_cancelIdx_mem ht
  refine ⟨foldl_rejectIdx_mem hw hp Reason.destroyed, rfl, hc, ?_, ?_⟩
  · unfold fireTimer
    cases htm : (destroyEv s).timers[t]? with
    | none => rfl
    | some tm =>
      dsimp only
      rw [hc tm htm]
      rfl
  · obtain ⟨f, rfl⟩ : ∃ f, fuel = f + 1 := ⟨fuel - 1, by omega⟩
    show go (f + 1) _ _ = _
    simp only [go]
    have hlk : lookupCalls (destroyEv s).calls k = none := rfl
    rw [hlk]

/-- Witness for C4 at a concrete input: the pending `wait(0, 1000)` of
`c2Wait` is rejected with `Destroyed`, its timer cannot fire afterwards,
and a later emit is a no-op. -/
theorem destroy_rejects_pending_waits_witness :
    (destroyEv c2Wait).promises[0]? = some (PState.rejected Reason.destroyed) ∧
    (destroyEv c2Wait).calls = [] ∧
    (∀ tm, (destroyEv c2Wait).timers[0]? = some tm → tm.active = false) ∧
    fireTimer 0 (destroyEv c2Wait) = destroyEv c2Wait ∧
    emitEv 5 3 none (destroyEv c2Wait) = Res.ok (destroyEv c2Wait) :=
  destroy_rejects_pending_waits c2Wait 0 0 3 none 5 (by decide) (by decide) (by decide)
    (by decide)

/-- C5: for `wait(K, T)` with truthy `T` on a state where `K` is
unregistered: if the timer fires (no `emit(K, _)` happened and `destroy`
was not called), the wait's promise is rejected with `TimedOut`
(`"Event timed out"`) and the timer's handle has been removed from the
timeout-tracking set by the timer callback; a later `emit(K, _)` runs the
stale `once` listener but does not change the already-rejected promise —
it stays rejected with `TimedOut` (promises settle at most once). -/
theorem wait_timeout_rejects (s : EState) (k : Key) (T : Nat) (p : Option Nat)
    (hT : T ≠ 0) (hk : lookupCalls s.calls k = none)
    (hfr : s.timers.length ∉ s.timeouts) :
    ((fireTimer s.timers.length (waitEv k (some T) s).1).promises)[(waitEv k (some T) s).2]? =
      some (PState.rejected Reason.timedOut) ∧
    s.timers.length ∉ (fireTimer s.timers.length (waitEv k (some T) s).1).timeouts ∧
    ∃ s3, emitEv 9 k p (fireTimer s.timers.length (waitEv k (some T) s).1) = Res.ok s3 ∧
      s3.promises[(waitEv k (some T) s).2]? = some (PState.rejected Reason.timedOut) := by
  rw [waitEv_eq s k T hT hk]
  dsimp only
  rw [fireTimer_waitState s k hfr]
  have hwlk : lookupCalls (firedState s k).calls k =
      some (s.nextGen, [some (s.store.length + 1)]) := by
    show lookupCalls (s.calls ++ [(k, s.nextGen, [some (s.store.length + 1)])]) k = _
    rw [lookupCalls_append_none hk]
    simp [lookupCalls]
  have hwi : (firedState s k).store[s.store.length + 1]? =
      some (LDef.wrapper k s.store.length) := by
    show (s.store ++ [LDef.waitCb s.promises.length (some s.timers.length),
                      LDef.wrapper k s.store.length])[s.store.length + 1]? = _
    rw [getElem?_append_length_add]
    rfl
  have hci : (firedState s k).store[s.store.length]? =
      some (LDef.waitCb s.promises.length (some s.timers.length)) := by
    show (s.store ++ [LDef.waitCb s.promises.length (some s.timers.length),
                      LDef.wrapper k s.store.length])[s.store.length]? = _
    have := getElem?_append_length_add s.store
      [LDef.waitCb s.promises.length (some s.timers.length),
       LDef.wrapper k s.store.length] 0
    simpa using this
  refine ⟨?_, ?_, ?_⟩
  · show (s.promises ++ [PState.rejected Reason.timedOut])[s.promises.length]? = _
    exact List.getElem?_concat_length _ _
  · show s.timers.length ∉ s.timeouts
    exact hfr
  · refine ⟨_, emit_wait_wrapper (firedState s k) k s.nextGen (s.store.length + 1)
      s.store.length s.promises.length (some s.timers.length) p hwlk hwi hci, ?_⟩
    rw [offEv_promises, waitFire_promises]
    have hget : (firedState s k).promises[s.promises.length]? =
        some (PState.rejected Reason.timedOut) := by
      show (s.promises ++ [PState.rejected Reason.timedOut])[s.promises.length]? = _
      exact List.getElem?_concat_length _ _
    unfold resolveIdx
    rw [if_neg (by rw [hget]; simp)]
    exact hget

/-- Witness for C5 at a concrete input: `wait(0, 50)` on a fresh emitter
whose timer then fires. -/
theorem wait_timeout_rejects_witness :
    ((fireTimer initE.timers.length (waitEv 0 (some 50) initE).1).promises)[(waitEv 0
        (some 50) initE).2]? = some (PState.rejected Reason.timedOut) ∧
    initE.timers.length ∉ (fireTimer initE.timers.length (waitEv 0 (some 50) initE).1).timeouts ∧
    ∃ s3, emitEv 9 0 (some 7) (fireTimer initE.timers.length (waitEv 0 (some 50) initE).1) =
        Res.ok s3 ∧
      s3.promises[(waitEv 0 (some 50) initE).2]? = some (PState.rejected Reason.timedOut) :=
  wait_timeout_rejects initE 0 50 (some 7) (by decide) (by decide) (by decide)

end EasyEmitter
